import Mathlib

/-!
# react-native-twc — verification of the prop/attribute/style resolution pipeline

Shallow embedding of `src/src/index.tsx` (the wrapper factory `createTwc`,
its render resolver, style merging helpers and the per-binder instance
cache).  JavaScript values are modelled by the first-order inductive
`JSVal`; JS objects are insertion-ordered association lists with JS spread
semantics; JS function values occurring *inside* objects (class-name
functions) are opaque tags applied through an environment.
-/

namespace RNTwc

/-- A JavaScript value as it occurs in the props/attrs/style pipeline.
`func t` is an opaque function value identified by tag `t`; applying it
goes through an environment `Nat → JSVal → JSVal`. -/
inductive JSVal where
  | undefined
  | null
  | bool (b : Bool)
  | num (n : Int)
  | str (s : String)
  | obj (fields : List (String × JSVal))
  | arr (elems : List JSVal)
  | func (t : Nat)

/-- A JavaScript object: insertion-ordered association list of fields. -/
abbrev Obj := List (String × JSVal)

/-- Property read `o[k]` on an object's field list: first matching key, or
`undefined` when absent (JS property access on a missing key). -/
def objGet (o : Obj) (k : String) : JSVal :=
  match o.find? (fun kv => kv.1 = k) with
  | some kv => kv.2
  | none => .undefined

/-- Whether the object has an own property named `k` (`k in o`). -/
def objHas (o : Obj) (k : String) : Bool :=
  o.any (fun kv => kv.1 = k)

/-- Property write `o[k] = v`: updates the existing entry in place (keeping
its position, as JS objects keep first-insertion key order) or appends a
new entry. -/
def objSet (o : Obj) (k : String) (v : JSVal) : Obj :=
  if objHas o k then o.map (fun kv => if kv.1 = k then (k, v) else kv)
  else o ++ [(k, v)]

/-- Object spread `{...a, ...b}`: every field of `b` written over `a`,
left to right. -/
def objSpread (a b : Obj) : Obj :=
  b.foldl (fun acc kv => objSet acc kv.1 kv.2) a

/-- JS loose nullish test `x == null`: true exactly for `null` and
`undefined`. -/
def isNullish : JSVal → Bool
  | .null => true
  | .undefined => true
  | _ => false

mutual

/-- JS `String(v)` / `ToString` coercion, as used by `String.raw` on the
interpolated template values. Array elements convert recursively, with
`null`/`undefined` elements contributing the empty string, comma-joined; a
plain object converts to `"[object Object]"`; a function value converts to
its (opaque in this model) source text. -/
def jsToString : JSVal → String
  | .undefined => "undefined"
  | .null => "null"
  | .bool b => cond b "true" "false"
  | .num n => toString n
  | .str s => s
  | .obj _ => "[object Object]"
  | .arr es => String.intercalate "," (jsToStringElems es)
  | .func t => "function anonymous" ++ toString t

/-- Elementwise `ToString` of an array's elements; `null` and `undefined`
elements contribute the empty string. -/
def jsToStringElems : List JSVal → List String
  | [] => []
  | .null :: rest => "" :: jsToStringElems rest
  | .undefined :: rest => "" :: jsToStringElems rest
  | v :: rest => jsToString v :: jsToStringElems rest

end

/-- `String.raw({ raw }, ...values)`: the raw fragments concatenated with
the `String(...)` conversions of the values spliced between them; values
beyond the fragment gaps are ignored, missing values contribute nothing. -/
def stringRaw : List String → List JSVal → String
  | [], _ => ""
  | [r], _ => r
  | r :: rs, [] => r ++ stringRaw rs []
  | r :: rs, v :: vs => r ++ jsToString v ++ stringRaw rs vs

/-- The own enumerable fields a value contributes under object spread
`{...v}`: an object's fields, an array's or string's indexed elements,
nothing for primitives and functions. -/
def spreadFields : JSVal → Obj
  | .obj f => f
  | .arr es => es.enum.map fun iv => (toString iv.1, iv.2)
  | .str s => s.data.enum.map fun ic => (toString ic.1, .str (String.singleton ic.2))
  | _ => []

mutual

/-- `flattenStyle` from `src/src/index.tsx`: `null`/`undefined` become
`{}`; an array is reduced left-to-right with
`(acc, s) => ({ ...acc, ...flattenStyle(s) })` starting from `{}`;
anything else is returned unchanged. -/
def flattenStyle : JSVal → JSVal
  | .undefined => .obj []
  | .null => .obj []
  | .arr es => .obj (flattenFold [] es)
  | .bool b => .bool b
  | .num n => .num n
  | .str s => .str s
  | .obj f => .obj f
  | .func t => .func t

/-- The left fold of `flattenStyle` over an array's elements:
each element is flattened and spread over the accumulator. -/
def flattenFold (acc : Obj) : List JSVal → Obj
  | [] => acc
  | s :: rest => flattenFold (objSpread acc (spreadFields (flattenStyle s))) rest

end

/-- `mergeStyles` from `src/src/index.tsx`: a nullish side yields the other
side unchanged; otherwise both sides are flattened and spread into a fresh
object, the override side last. -/
def mergeStyles (baseStyle overrideStyle : JSVal) : JSVal :=
  if isNullish baseStyle then overrideStyle
  else if isNullish overrideStyle then baseStyle
  else .obj (objSpread (spreadFields (flattenStyle baseStyle))
      (spreadFields (flattenStyle overrideStyle)))

/-- `mergePropsWithAttrs` from `src/src/index.tsx`:
`merged = { ...attrs, ...props }`, and only when `attrs.style != null` and
`props.style != null` is `merged.style` replaced by
`mergeStyles(attrs.style, props.style)`. -/
def mergePropsWithAttrs (attrs props : Obj) : Obj :=
  let merged := objSpread attrs props
  if !isNullish (objGet attrs "style") && !isNullish (objGet props "style") then
    objSet merged "style" (mergeStyles (objGet attrs "style") (objGet props "style"))
  else merged

/-- `filterProps` from `src/src/index.tsx`: keep, in key order, exactly the
entries whose key passes `shouldForwardProp`. -/
def filterProps (props : Obj) (shouldForwardProp : String → Bool) : Obj :=
  props.filter fun kv => shouldForwardProp kv.1

/-- JS truthiness of a value. -/
def truthy : JSVal → Bool
  | .undefined => false
  | .null => false
  | .bool b => b
  | .num n => decide (n ≠ 0)
  | .str s => decide (s ≠ "")
  | .obj _ => true
  | .arr _ => true
  | .func _ => true

/-- Space-join the nonempty strings of a list, in order, keeping
duplicates. -/
def joinClasses (l : List String) : String :=
  l.foldl (fun acc y => if y = "" then acc else if acc = "" then y else acc ++ " " ++ y) ""

mutual

/-- Modelled from the spec: the default compose function is the external
`clsx` dependency (not part of this repository), described by the spec as
"a falsy-value-filtering, array-flattening, space-joining combinator" with
no deduplication. A string or number contributes its text, an array
contributes its truthy elements recursively, an object contributes the
keys whose values are truthy, in order; falsy inputs contribute nothing;
the nonempty contributions are joined with single spaces. -/
def clsxToVal : JSVal → String
  | .str s => s
  | .num n => toString n
  | .arr es => joinClasses (clsxElems es)
  | .obj fs => joinClasses (fs.map fun kv => if truthy kv.2 then kv.1 else "")
  | .undefined => ""
  | .null => ""
  | .bool _ => ""
  | .func _ => ""

/-- Modelled from the spec: the contributions of an array's elements to
`clsx` — truthy elements recursively, falsy elements nothing. -/
def clsxElems : List JSVal → List String
  | [] => []
  | e :: rest => (if truthy e then clsxToVal e else "") :: clsxElems rest

end

/-- Modelled from the spec: `clsx` applied to exactly two arguments, the
shape of every `compose(a, b)` call the render resolver makes under the
default configuration. -/
def clsx2 (a b : JSVal) : JSVal :=
  .str (joinClasses [if truthy a then clsxToVal a else "",
                     if truthy b then clsxToVal b else ""])

/-- The default forwarding predicate of `createTwc`:
`(prop) => prop[0] !== '$'` — forward unless the name's first character is
`$` (on the empty name, `prop[0]` is `undefined`, which is `!== '$'`). -/
def defaultShouldForwardProp (prop : String) : Bool :=
  match prop.data with
  | [] => true
  | c :: _ => decide (c ≠ '$')

/-- An attrs spec as stored by `.attrs(...)`: a static mapping, or a
function of the full incoming props. -/
inductive AttrsSpec where
  | static (o : Obj)
  | funcSpec (f : Obj → Obj)

/-- The class input bound by a template invocation: the precomputed
literal-template string (`tplClassName`), or a class-name-computing
function of the full incoming props. -/
inductive ClassInput where
  | tpl (s : String)
  | classFn (f : Obj → JSVal)

/-- Everything a produced `ForwardedComponent` closes over: the attrs
spec, the forwarding predicate, the optional children renderer, the class
input and the factory's compose function. -/
structure RenderCfg where
  attrs : Option AttrsSpec
  shouldForwardProp : String → Bool
  childrenRenderer : Option (JSVal → JSVal)
  classInput : ClassInput
  compose : JSVal → JSVal → JSVal

/-- The property mapping the render resolver hands to a function-shaped
attrs spec: the full incoming props `p`, not the filtered `rest`, per
`(attrs as Function)(p)`. -/
def attrsFunctionArgument (p : Obj) : Obj := p

/-- The property mapping the render resolver hands to a function-shaped
class input: the full incoming props `p`, per
`(stringsOrFn as Function)(p)`. -/
def classFunctionArgument (p : Obj) : Obj := p

/-- The `rest` of `const { className: classNameProp, children, ...rest } = p`:
the incoming props minus the `className` and `children` entries, order
preserved. -/
def restOf (p : Obj) : Obj :=
  p.filter fun kv => !(kv.1 == "className") && !(kv.1 == "children")

/-- The `finalProps` computation of `ForwardedComponent`: no attrs —
filter `rest`; function attrs — resolve on the full props, merge with
`rest`, filter; static attrs — merge with `rest`, filter. -/
def resolveFinalProps (cfg : RenderCfg) (p : Obj) : Obj :=
  let rest := restOf p
  match cfg.attrs with
  | none => filterProps rest cfg.shouldForwardProp
  | some (.funcSpec f) =>
      filterProps (mergePropsWithAttrs (f (attrsFunctionArgument p)) rest)
        cfg.shouldForwardProp
  | some (.static a) =>
      filterProps (mergePropsWithAttrs a rest) cfg.shouldForwardProp

/-- A computed `finalClassName`: a plain value, or — the deferred
interaction-state case — a function of the render-state object. -/
inductive FinalClass where
  | val (v : JSVal)
  | deferred (f : JSVal → JSVal)

/-- The `finalClassName` computation of `ForwardedComponent`. `env`
interprets the opaque function tags occurring as values (a function-valued
`baseClassName` or `className` prop). When `baseClassName` is a function,
the result is itself a function of the render props that composes
`baseClassName(renderProps)` with `classNameProp(renderProps)` if the
`className` prop is a function, and with `classNameProp` as-is otherwise;
when it is not a function, the result is `compose(baseClassName,
classNameProp)`. -/
def resolveClassName (cfg : RenderCfg) (env : Nat → JSVal → JSVal) (p : Obj) : FinalClass :=
  let classNameProp := objGet p "className"
  let baseClassName : JSVal :=
    match cfg.classInput with
    | .tpl s => .str s
    | .classFn f => f (classFunctionArgument p)
  match baseClassName with
  | .func tb => .deferred fun renderProps =>
      cfg.compose (env tb renderProps)
        (match classNameProp with
         | .func tc => env tc renderProps
         | v => v)
  | .undefined => .val (cfg.compose .undefined (objGet p "className"))
  | .null => .val (cfg.compose .null (objGet p "className"))
  | .bool b => .val (cfg.compose (.bool b) (objGet p "className"))
  | .num n => .val (cfg.compose (.num n) (objGet p "className"))
  | .str s => .val (cfg.compose (.str s) (objGet p "className"))
  | .obj f => .val (cfg.compose (.obj f) (objGet p "className"))
  | .arr es => .val (cfg.compose (.arr es) (objGet p "className"))

/-- The `finalChildren` computation: the bound renderer applied to the
incoming `children` value (`undefined` when absent), or the incoming
`children` unchanged when no renderer is bound. -/
def resolveChildren (childrenRenderer : Option (JSVal → JSVal)) (p : Obj) : JSVal :=
  match childrenRenderer with
  | some r => r (objGet p "children")
  | none => objGet p "children"

/-- The class name the base component actually receives: the emit spreads
`{...finalProps}` after `className={finalClassName}`, so a forwarded
`className` entry in `finalProps` (possible only through attrs) overrides
the composed one. -/
def emittedClassName (cfg : RenderCfg) (env : Nat → JSVal → JSVal) (p : Obj) : FinalClass :=
  let fp := resolveFinalProps cfg p
  if objHas fp "className" then .val (objGet fp "className")
  else resolveClassName cfg env p

/-- The children the base component actually receives: the JSX child
position `{finalChildren}` always wins over any spread `children` entry. -/
def emittedChildren (cfg : RenderCfg) (p : Obj) : JSVal :=
  resolveChildren cfg.childrenRenderer p

/-- The configuration one `createTemplate` closure carries: attrs spec,
forwarding predicate, children renderer. -/
structure TemplateConfig where
  attrs : Option AttrsSpec
  shouldForwardProp : String → Bool
  childrenRenderer : Option (JSVal → JSVal)

/-- The argument of `template.transientProps`: an array of prop names, or
a predicate over prop names. -/
inductive TransientArg where
  | names (l : List String)
  | pred (f : String → Bool)

/-- `template.transientProps`: builds a brand-new forwarding predicate —
the negation of list membership, or of the given predicate — and passes it
to `createTemplate`, discarding the previously installed predicate. -/
def transientProps (cfg : TemplateConfig) (fnOrArray : TransientArg) : TemplateConfig :=
  { cfg with
    shouldForwardProp :=
      match fnOrArray with
      | .pred f => fun prop => !(f prop)
      | .names l => fun prop => !(l.contains prop) }

/-- `template.withChildren`: rebuilds the template configuration with the
given children renderer installed. -/
def withChildren (cfg : TemplateConfig) (renderer : JSVal → JSVal) : TemplateConfig :=
  { cfg with childrenRenderer := some renderer }

/-- `template.attrs`: rebuilds the template configuration with the given
attrs spec installed (exposed only while no attrs spec is set). -/
def attrsModifier (cfg : TemplateConfig) (newAttrs : AttrsSpec) : TemplateConfig :=
  { cfg with attrs := some newAttrs }

/-- The template configuration `createTemplate()` starts from: no attrs,
the factory's default predicate, no children renderer. -/
def initialTemplateConfig (shouldForwardProp : String → Bool) : TemplateConfig :=
  { attrs := none, shouldForwardProp := shouldForwardProp, childrenRenderer := none }

/-- The render configuration of the wrapped component a template
invocation produces from a binder configuration, a class input and the
factory's compose function. -/
def renderCfgOf (tc : TemplateConfig) (ci : ClassInput)
    (compose : JSVal → JSVal → JSVal) : RenderCfg :=
  { attrs := tc.attrs, shouldForwardProp := tc.shouldForwardProp,
    childrenRenderer := tc.childrenRenderer, classInput := ci, compose := compose }

/-- The template-shaped argument of one template invocation: a
tagged-template literal (raw string fragments plus interpolated values) or
a class-name function, carried here by its source text
(`stringsOrFn.toString()`). -/
inductive TemplateInput where
  | lit (raw : List String) (values : List JSVal)
  | srcFn (src : String)

/-- The cache key computed by `template`: `stringsOrFn.toString()` for the
function shape, `String.raw({ raw: stringsOrFn }, ...values)` for the
literal-template shape. -/
def cacheKey : TemplateInput → String
  | .srcFn src => src
  | .lit raw values => stringRaw raw values

/-- The mutable state beside one template binder: the `componentCache`
mapping cache keys to already-produced components (identified here by
construction order) together with the count of components constructed. -/
structure BinderState where
  cache : List (String × Nat)
  nextId : Nat

/-- One `template(...)` invocation against the cache: on a hit return the
cached component (second output `true`, state unchanged); on a miss
construct a fresh component, store it under the key and return it. -/
def templateCall (st : BinderState) (inp : TemplateInput) : Nat × Bool × BinderState :=
  let key := cacheKey inp
  match st.cache.find? (fun e => e.1 = key) with
  | some e => (e.2, true, st)
  | none => (st.nextId, false, ⟨st.cache ++ [(key, st.nextId)], st.nextId + 1⟩)

/-- A faithful JavaScript object: own property names never repeat. -/
def NodupKeys (o : Obj) : Prop := (o.map Prod.fst).Nodup

/-- The flattened field list of an object's `style` entry. -/
def styleFields (o : Obj) : Obj := spreadFields (flattenStyle (objGet o "style"))

/-! ## Lemmas about the object operations -/

theorem objGet_cons (kv : String × JSVal) (o : Obj) (k : String) :
    objGet (kv :: o) k = if kv.1 = k then kv.2 else objGet o k := by
  by_cases h : kv.1 = k <;> simp [objGet, List.find?_cons, h]

theorem objHas_cons (kv : String × JSVal) (o : Obj) (k : String) :
    objHas (kv :: o) k = (decide (kv.1 = k) || objHas o k) := by
  simp [objHas, List.any_cons]

theorem objGet_of_not_has {o : Obj} {k : String} (h : objHas o k = false) :
    objGet o k = .undefined := by
  induction o with
  | nil => rfl
  | cons kv rest ih =>
    rw [objHas_cons] at h
    rcases Bool.or_eq_false_iff.mp h with ⟨h1, h2⟩
    rw [objGet_cons, if_neg (by simpa using h1), ih h2]

theorem objGet_map_update_ne {o : Obj} {k k' : String} (v : JSVal) (h : k' ≠ k) :
    objGet (o.map fun kv => if kv.1 = k then (k, v) else kv) k' = objGet o k' := by
  induction o with
  | nil => rfl
  | cons kv rest ih =>
    simp only [List.map_cons]
    rw [objGet_cons, objGet_cons]
    by_cases hk : kv.1 = k
    · have h1 : ¬((k, v).1 = k') := fun hh => h hh.symm
      have h2 : ¬(kv.1 = k') := fun hh => h (hk.symm.trans hh).symm
      rw [if_pos hk, if_neg h1, if_neg h2, ih]
    · rw [if_neg hk]
      by_cases h2 : kv.1 = k'
      · rw [if_pos h2, if_pos h2]
      · rw [if_neg h2, if_neg h2, ih]

theorem objGet_map_update_self {o : Obj} {k : String} (v : JSVal) (h : objHas o k = true) :
    objGet (o.map fun kv => if kv.1 = k then (k, v) else kv) k = v := by
  induction o with
  | nil => simp [objHas] at h
  | cons kv rest ih =>
    simp only [List.map_cons]
    rw [objGet_cons]
    by_cases hk : kv.1 = k
    · rw [if_pos hk]; simp
    · rw [if_neg hk, if_neg hk]
      apply ih
      rw [objHas_cons] at h
      simpa [hk] using h

theorem objHas_map_update (o : Obj) (k : String) (v : JSVal) (k' : String) :
    objHas (o.map fun kv => if kv.1 = k then (k, v) else kv) k' = objHas o k' := by
  induction o with
  | nil => rfl
  | cons kv rest ih =>
    simp only [List.map_cons]
    rw [objHas_cons, objHas_cons, ih]
    by_cases hk : kv.1 = k
    · rw [if_pos hk]; simp [hk]
    · rw [if_neg hk]

theorem objGet_append (o₁ o₂ : Obj) (k : String) :
    objGet (o₁ ++ o₂) k = if objHas o₁ k then objGet o₁ k else objGet o₂ k := by
  induction o₁ with
  | nil => simp [objHas]
  | cons kv rest ih =>
    rw [List.cons_append, objGet_cons, objGet_cons, objHas_cons]
    by_cases h : kv.1 = k
    · simp [h]
    · simp only [h, decide_False, Bool.false_or, if_neg h]
      exact ih

theorem objHas_append (o₁ o₂ : Obj) (k : String) :
    objHas (o₁ ++ o₂) k = (objHas o₁ k || objHas o₂ k) := by
  simp [objHas, List.any_append]

theorem objGet_objSet (o : Obj) (k : String) (v : JSVal) (k' : String) :
    objGet (objSet o k v) k' = if k' = k then v else objGet o k' := by
  unfold objSet
  by_cases hmem : objHas o k
  · rw [if_pos hmem]
    by_cases hk' : k' = k
    · rw [if_pos hk', hk', objGet_map_update_self v hmem]
    · rw [if_neg hk', objGet_map_update_ne v hk']
  · rw [if_neg hmem, objGet_append]
    rw [Bool.not_eq_true] at hmem
    by_cases hk' : k' = k
    · subst hk'
      simp [hmem, objGet_cons]
    · rw [if_neg hk']
      by_cases hhas : objHas o k'
      · rw [if_pos hhas]
      · rw [Bool.not_eq_true] at hhas
        rw [hhas, if_neg (by simp), objGet_cons, if_neg (fun hh : k = k' => hk' hh.symm),
          objGet_of_not_has hhas]
        rfl

theorem objHas_objSet (o : Obj) (k : String) (v : JSVal) (k' : String) :
    objHas (objSet o k v) k' = (decide (k' = k) || objHas o k') := by
  unfold objSet
  by_cases hmem : objHas o k
  · rw [if_pos hmem, objHas_map_update]
    by_cases hk' : k' = k
    · simp [hk', hmem]
    · simp [hk']
  · rw [if_neg hmem, objHas_append, objHas_cons]
    simp only [objHas, List.any_nil, Bool.or_false]
    rw [Bool.or_comm]
    congr 1
    simp [eq_comm]

theorem objSpread_cons (a : Obj) (kv : String × JSVal) (b : Obj) :
    objSpread a (kv :: b) = objSpread (objSet a kv.1 kv.2) b := rfl

theorem objHas_objSpread (a b : Obj) (k : String) :
    objHas (objSpread a b) k = (objHas a k || objHas b k) := by
  induction b generalizing a with
  | nil => simp [objSpread, objHas]
  | cons kv rest ih =>
    rw [objSpread_cons, ih, objHas_objSet, objHas_cons]
    by_cases h : k = kv.1
    · simp [h]
    · have h2 : (kv.1 = k) = False := eq_false fun hh => h hh.symm
      simp [h, h2, Bool.or_assoc]

theorem objGet_objSpread_of_not_has {b : Obj} {k : String} (a : Obj)
    (h : objHas b k = false) : objGet (objSpread a b) k = objGet a k := by
  induction b generalizing a with
  | nil => rfl
  | cons kv rest ih =>
    rw [objHas_cons] at h
    rcases Bool.or_eq_false_iff.mp h with ⟨h1, h2⟩
    rw [objSpread_cons, ih _ h2, objGet_objSet,
      if_neg (fun hh : k = kv.1 => (by simpa using h1 : ¬(kv.1 = k)) hh.symm)]

theorem objGet_objSpread_of_has {b : Obj} {k : String} (a : Obj) (hnd : NodupKeys b)
    (h : objHas b k = true) : objGet (objSpread a b) k = objGet b k := by
  induction b generalizing a with
  | nil => simp [objHas] at h
  | cons kv rest ih =>
    have hnd0 : ((kv :: rest).map Prod.fst).Nodup := hnd
    rw [List.map_cons] at hnd0
    have hnotin : kv.1 ∉ rest.map Prod.fst := (List.nodup_cons.mp hnd0).1
    have hndrest : NodupKeys rest := (List.nodup_cons.mp hnd0).2
    rw [objSpread_cons, objGet_cons]
    by_cases hk : kv.1 = k
    · rw [if_pos hk]
      have hrest : objHas rest k = false := by
        by_contra hcon
        rw [Bool.not_eq_false, objHas, List.any_eq_true] at hcon
        obtain ⟨kv', hmem', hkv'⟩ := hcon
        simp only [decide_eq_true_eq] at hkv'
        exact hnotin (List.mem_map.mpr ⟨kv', hmem', hkv'.trans hk.symm⟩)
      rw [objGet_objSpread_of_not_has _ hrest, objGet_objSet, if_pos hk.symm]
    · rw [if_neg hk]
      have h2 : objHas rest k = true := by
        rw [objHas_cons] at h
        simpa [hk] using h
      exact ih _ hndrest h2

theorem objHas_of_not_nullish {o : Obj} {k : String}
    (h : isNullish (objGet o k) = false) : objHas o k = true := by
  by_contra hcon
  rw [Bool.not_eq_true] at hcon
  rw [objGet_of_not_has hcon] at h
  simp [isNullish] at h

/-! ## Lemmas about `filterProps`, `restOf` and `mergePropsWithAttrs` -/

theorem objHas_filterProps (o : Obj) (pred : String → Bool) (k : String) :
    objHas (filterProps o pred) k = (objHas o k && pred k) := by
  induction o with
  | nil => rfl
  | cons kv rest ih =>
    simp only [filterProps, List.filter_cons] at ih ⊢
    by_cases hp : pred kv.1 = true
    · rw [if_pos hp, objHas_cons, objHas_cons, ih]
      by_cases hk : kv.1 = k
      · simp [hk, hk ▸ hp]
      · simp [hk]
    · rw [if_neg hp, objHas_cons, ih]
      by_cases hk : kv.1 = k
      · have : pred k = false := by
          rw [← hk]
          exact Bool.not_eq_true _ |>.mp hp
        simp [this]
      · simp [hk]

theorem objGet_filterProps (o : Obj) {pred : String → Bool} {k : String}
    (h : pred k = true) : objGet (filterProps o pred) k = objGet o k := by
  induction o with
  | nil => rfl
  | cons kv rest ih =>
    simp only [filterProps, List.filter_cons] at ih ⊢
    by_cases hp : pred kv.1 = true
    · rw [if_pos hp, objGet_cons, objGet_cons]
      by_cases hk : kv.1 = k
      · rw [if_pos hk, if_pos hk]
      · rw [if_neg hk, if_neg hk, ih]
    · rw [if_neg hp, objGet_cons, if_neg (fun hh : kv.1 = k => hp (hh ▸ h)), ih]

theorem restOf_eq_filterProps (p : Obj) :
    restOf p = filterProps p (fun k => !(k == "className") && !(k == "children")) := rfl

theorem objHas_restOf (p : Obj) (k : String) :
    objHas (restOf p) k =
      (objHas p k && (!(k == "className") && !(k == "children"))) := by
  rw [restOf_eq_filterProps, objHas_filterProps]

theorem objGet_restOf (p : Obj) {k : String} (h1 : k ≠ "className")
    (h2 : k ≠ "children") : objGet (restOf p) k = objGet p k := by
  rw [restOf_eq_filterProps, objGet_filterProps]
  simp [h1, h2]

theorem objHas_mergePropsWithAttrs (attrs props : Obj) (k : String) :
    objHas (mergePropsWithAttrs attrs props) k = (objHas attrs k || objHas props k) := by
  unfold mergePropsWithAttrs
  by_cases hc : (!isNullish (objGet attrs "style") && !isNullish (objGet props "style")) = true
  · rw [if_pos hc, objHas_objSet, objHas_objSpread]
    by_cases hk : k = "style"
    · subst hk
      simp only [Bool.and_eq_true, Bool.not_eq_true'] at hc
      rw [objHas_of_not_nullish hc.1]
      simp
    · simp [hk]
  · rw [if_neg hc, objHas_objSpread]

theorem objGet_mergePropsWithAttrs_of_has {props : Obj} {k : String} (attrs : Obj)
    (hk : k ≠ "style") (hnd : NodupKeys props) (h : objHas props k = true) :
    objGet (mergePropsWithAttrs attrs props) k = objGet props k := by
  unfold mergePropsWithAttrs
  by_cases hc : (!isNullish (objGet attrs "style") && !isNullish (objGet props "style")) = true
  · rw [if_pos hc, objGet_objSet, if_neg hk, objGet_objSpread_of_has _ hnd h]
  · rw [if_neg hc, objGet_objSpread_of_has _ hnd h]

theorem objGet_mergePropsWithAttrs_of_not_has {props : Obj} {k : String} (attrs : Obj)
    (hk : k ≠ "style") (h : objHas props k = false) :
    objGet (mergePropsWithAttrs attrs props) k = objGet attrs k := by
  unfold mergePropsWithAttrs
  by_cases hc : (!isNullish (objGet attrs "style") && !isNullish (objGet props "style")) = true
  · rw [if_pos hc, objGet_objSet, if_neg hk, objGet_objSpread_of_not_has _ h]
  · rw [if_neg hc, objGet_objSpread_of_not_has _ h]

theorem objGet_mergePropsWithAttrs_style_both {attrs props : Obj}
    (hA : isNullish (objGet attrs "style") = false)
    (hB : isNullish (objGet props "style") = false) :
    objGet (mergePropsWithAttrs attrs props) "style" =
      .obj (objSpread (styleFields attrs) (styleFields props)) := by
  unfold mergePropsWithAttrs
  rw [if_pos (by rw [hA, hB]; rfl), objGet_objSet, if_pos rfl]
  unfold mergeStyles
  rw [hA, hB]
  rfl

theorem objGet_mergePropsWithAttrs_style_nullish {attrs props : Obj}
    (h : isNullish (objGet attrs "style") = true ∨ isNullish (objGet props "style") = true)
    (hnd : NodupKeys props) :
    objGet (mergePropsWithAttrs attrs props) "style" =
      if objHas props "style" then objGet props "style" else objGet attrs "style" := by
  unfold mergePropsWithAttrs
  have hc : (!isNullish (objGet attrs "style") && !isNullish (objGet props "style")) = false := by
    rcases h with h | h <;> simp [h]
  rw [if_neg (by simp [hc])]
  by_cases hhas : objHas props "style"
  · rw [if_pos hhas, objGet_objSpread_of_has _ hnd hhas]
  · rw [if_neg hhas, objGet_objSpread_of_not_has _ (Bool.not_eq_true _ |>.mp hhas)]

/-! ## Lemmas about flattening and the template string -/

theorem flattenFold_append (acc : Obj) (l₁ l₂ : List JSVal) :
    flattenFold acc (l₁ ++ l₂) = flattenFold (flattenFold acc l₁) l₂ := by
  induction l₁ generalizing acc with
  | nil => rfl
  | cons s rest ih =>
    show flattenFold (objSpread acc (spreadFields (flattenStyle s))) (rest ++ l₂) = _
    rw [ih]
    rfl

theorem flattenStyle_arr_append (l : List JSVal) (s : JSVal) :
    flattenStyle (.arr (l ++ [s])) =
      .obj (objSpread (spreadFields (flattenStyle (.arr l)))
        (spreadFields (flattenStyle s))) := by
  show JSVal.obj (flattenFold [] (l ++ [s])) = _
  rw [flattenFold_append]
  rfl

theorem stringRaw_congr {v w : List JSVal} (raw : List String)
    (h : v.map jsToString = w.map jsToString) : stringRaw raw v = stringRaw raw w := by
  induction raw generalizing v w with
  | nil => rfl
  | cons r rs ih =>
    cases rs with
    | nil => cases v <;> cases w <;> rfl
    | cons r2 rs2 =>
      cases v with
      | nil =>
        cases w with
        | nil => rfl
        | cons y ys => simp at h
      | cons x xs =>
        cases w with
        | nil => simp at h
        | cons y ys =>
          simp only [List.map_cons, List.cons.injEq] at h
          show r ++ jsToString x ++ stringRaw (r2 :: rs2) xs =
            r ++ jsToString y ++ stringRaw (r2 :: rs2) ys
          rw [h.1, ih h.2]

/-! ## Lemmas about the render resolver and the cache -/

theorem objHas_resolveFinalProps_false (cfg : RenderCfg) (p : Obj) {k : String}
    (hpred : cfg.shouldForwardProp k = false) :
    objHas (resolveFinalProps cfg p) k = false := by
  obtain ⟨attrs, sfp, cr, ci, co⟩ := cfg
  simp only [RenderCfg.shouldForwardProp] at hpred
  cases attrs with
  | none => simp [resolveFinalProps, objHas_filterProps, hpred]
  | some a =>
    cases a with
    | static o => simp [resolveFinalProps, objHas_filterProps, hpred]
    | funcSpec f => simp [resolveFinalProps, objHas_filterProps, hpred]

theorem objHas_resolveFinalProps_className (cfg : RenderCfg) (p : Obj)
    (hstatic : ∀ a, cfg.attrs = some (.static a) → objHas a "className" = false)
    (hfunc : ∀ f, cfg.attrs = some (.funcSpec f) →
      objHas (f (attrsFunctionArgument p)) "className" = false) :
    objHas (resolveFinalProps cfg p) "className" = false := by
  obtain ⟨attrs, sfp, cr, ci, co⟩ := cfg
  have hrest : objHas (restOf p) "className" = false := by
    rw [objHas_restOf]
    simp
  cases attrs with
  | none => simp [resolveFinalProps, objHas_filterProps, hrest]
  | some a =>
    cases a with
    | static o =>
      have ho := hstatic o rfl
      simp [resolveFinalProps, objHas_filterProps, objHas_mergePropsWithAttrs, ho, hrest]
    | funcSpec f =>
      have hf := hfunc f rfl
      simp [resolveFinalProps, objHas_filterProps, objHas_mergePropsWithAttrs, hf, hrest]

theorem find?_append_of_none {α : Type} {q : α → Bool} {l₁ : List α}
    (h : l₁.find? q = none) (l₂ : List α) : (l₁ ++ l₂).find? q = l₂.find? q := by
  induction l₁ with
  | nil => rfl
  | cons x xs ih =>
    rw [List.find?_cons] at h
    rw [List.cons_append, List.find?_cons]
    cases hq : q x with
    | true => rw [hq] at h; simp at h
    | false => rw [hq] at h; exact ih h

/-! ## The claims -/

/-- C1, counterexample: two literal-template invocations with identical
literal fragments `["a-", ""]` but different interpolated values `"x"` /
`"y"` produce different cache keys, and the second invocation constructs a
fresh component instead of returning the cached one — the cache key does
depend on the interpolated values' content. -/
theorem claim_C1_counterexample :
    cacheKey (.lit ["a-", ""] [.str "x"]) ≠ cacheKey (.lit ["a-", ""] [.str "y"]) ∧
    (templateCall (templateCall ⟨[], 0⟩ (.lit ["a-", ""] [.str "x"])).2.2
        (.lit ["a-", ""] [.str "y"])).1 ≠
      (templateCall (⟨[], 0⟩ : BinderState) (.lit ["a-", ""] [.str "x"])).1 := by
  exact ⟨by decide, by decide⟩

/-- C1, amended: the literal-template cache key is the fully interpolated
string `String.raw({raw: strings}, ...values)` — the literal fragments
concatenated with the string conversions of the interpolated values
spliced between them — so, contrary to the original claim, the key does
depend on the interpolated values' content (see the counterexample);
invocations whose value lists have equal elementwise string conversions
share one cache key (and hence one cached component); a function-shaped
invocation keys by the function's textual source representation. -/
theorem claim_C1_amended (raw : List String) (v w : List JSVal) (src : String) :
    cacheKey (.srcFn src) = src ∧
    cacheKey (.lit raw v) = stringRaw raw v ∧
    (v.map jsToString = w.map jsToString →
      cacheKey (.lit raw v) = cacheKey (.lit raw w)) :=
  ⟨rfl, rfl, fun h => stringRaw_congr raw h⟩

/-- Witness for the amended C1: the interpolated values `2` (a number) and
`"2"` (a string) have the same string conversion, so the two literal
invocations share one cache key. -/
theorem claim_C1_amended_witness :
    cacheKey (.lit ["n-", ""] [.num 2]) = cacheKey (.lit ["n-", ""] [.str "2"]) :=
  (claim_C1_amended ["n-", ""] [.num 2] [.str "2"] "src").2.2 (by decide)

/-- C2: invoking one template binder twice with the same template input
returns the same wrapped-component instance (the same component id) and
the second call is answered from the instance cache: hit flag `true`,
cache state unchanged, no new component constructed. -/
theorem claim_C2 (st : BinderState) (inp : TemplateInput) :
    templateCall (templateCall st inp).2.2 inp =
      ((templateCall st inp).1, true, (templateCall st inp).2.2) := by
  unfold templateCall
  cases hf : st.cache.find? (fun e => e.1 = cacheKey inp) with
  | some e => simp [hf]
  | none =>
    have h2 : (st.cache ++ [(cacheKey inp, st.nextId)]).find?
        (fun e => e.1 = cacheKey inp) = some (cacheKey inp, st.nextId) := by
      rw [find?_append_of_none hf, List.find?_cons]
      simp
    simp [hf, h2]

/-- C3: the incoming props win over attrs on every non-`style` key while
attrs-only keys survive; when both sides carry a non-nullish `style`, the
merged `style` is the attrs-side flattened fields overridden by the
props-side flattened fields — shared keys take the props-side value, keys
on one side only keep that side's value — and an array-valued style is
flattened left-to-right, later entries overriding earlier ones. -/
theorem claim_C3 (attrs props : Obj) (k j : String) (l : List JSVal) (s : JSVal) :
    (NodupKeys props → k ≠ "style" → objHas props k = true →
      objGet (mergePropsWithAttrs attrs props) k = objGet props k) ∧
    (k ≠ "style" → objHas props k = false →
      objGet (mergePropsWithAttrs attrs props) k = objGet attrs k) ∧
    (isNullish (objGet attrs "style") = false →
      isNullish (objGet props "style") = false →
      objGet (mergePropsWithAttrs attrs props) "style" =
        .obj (objSpread (styleFields attrs) (styleFields props))) ∧
    (NodupKeys (styleFields props) → objHas (styleFields props) j = true →
      objGet (objSpread (styleFields attrs) (styleFields props)) j =
        objGet (styleFields props) j) ∧
    (objHas (styleFields props) j = false →
      objGet (objSpread (styleFields attrs) (styleFields props)) j =
        objGet (styleFields attrs) j) ∧
    (flattenStyle (.arr (l ++ [s])) =
      .obj (objSpread (spreadFields (flattenStyle (.arr l)))
        (spreadFields (flattenStyle s)))) :=
  ⟨fun hnd hk h => objGet_mergePropsWithAttrs_of_has attrs hk hnd h,
   fun hk h => objGet_mergePropsWithAttrs_of_not_has attrs hk h,
   fun hA hB => objGet_mergePropsWithAttrs_style_both hA hB,
   fun hnd hj => objGet_objSpread_of_has _ hnd hj,
   fun hj => objGet_objSpread_of_not_has _ hj,
   flattenStyle_arr_append l s⟩

/-- Witness for C3: a concrete merge where the props side overrides the
shared key `a`, both styles merge with the props side winning on the
shared style key `q`, and an array style flattens with the later entry
overriding. -/
theorem claim_C3_witness :
    objGet (mergePropsWithAttrs
        [("a", .num 1), ("style", .obj [("p", .num 1), ("q", .num 2)])]
        [("a", .num 9), ("style", .obj [("q", .num 3)])]) "a" = .num 9 ∧
    objGet (mergePropsWithAttrs
        [("a", .num 1), ("style", .obj [("p", .num 1), ("q", .num 2)])]
        [("a", .num 9), ("style", .obj [("q", .num 3)])]) "style" =
      .obj (objSpread
        (styleFields [("a", .num 1), ("style", .obj [("p", .num 1), ("q", .num 2)])])
        (styleFields [("a", .num 9), ("style", .obj [("q", .num 3)])])) ∧
    flattenStyle (.arr ([.obj [("q", .num 3)]] ++ [.obj [("q", .num 4)]])) =
      .obj (objSpread (spreadFields (flattenStyle (.arr [.obj [("q", .num 3)]])))
        (spreadFields (flattenStyle (.obj [("q", .num 4)])))) := by
  have h := claim_C3
    [("a", .num 1), ("style", .obj [("p", .num 1), ("q", .num 2)])]
    [("a", .num 9), ("style", .obj [("q", .num 3)])] "a" "q"
    [.obj [("q", .num 3)]] (.obj [("q", .num 4)])
  refine ⟨h.1 ?_ (by decide) rfl, h.2.2.1 rfl rfl, h.2.2.2.2.2⟩
  show (List.map Prod.fst
    [("a", JSVal.num 9), ("style", JSVal.obj [("q", JSVal.num 3)])]).Nodup
  decide

/-- C4, counterexample: with attrs `{style: {padding: 10}}` and incoming
props `{style: null}` the props-side style is nullish, yet the merged
`style` is `null` and not the attrs side's `{padding: 10}` — an explicit
null props style clobbers the attrs style rather than yielding the other
side's value. -/
theorem claim_C4_counterexample :
    objGet (mergePropsWithAttrs [("style", .obj [("padding", .num 10)])]
      [("style", .null)]) "style" = .null ∧
    JSVal.null ≠ .obj [("padding", .num 10)] :=
  ⟨rfl, fun h => JSVal.noConfusion h⟩

/-- C4, amended: when either side's `style` is nullish (absent, null or
undefined) no style merge and no flattening are performed: the merged
`style` is the plain spread result — the props-side `style` entry (even a
null/undefined one, which then replaces attrs' style) whenever the props
mapping carries a `style` key, and the attrs-side `style` value unchanged
otherwise. -/
theorem claim_C4_amended (attrs props : Obj)
    (h : isNullish (objGet attrs "style") = true ∨
      isNullish (objGet props "style") = true)
    (hnd : NodupKeys props) :
    objGet (mergePropsWithAttrs attrs props) "style" =
      if objHas props "style" then objGet props "style" else objGet attrs "style" :=
  objGet_mergePropsWithAttrs_style_nullish h hnd

/-- Witness for the amended C4: props without a `style` key keep the attrs
style unchanged. -/
theorem claim_C4_amended_witness :
    objGet (mergePropsWithAttrs [("style", .obj [("p", .num 1)])]
      [("k", .num 2)]) "style" = .obj [("p", .num 1)] := by
  rw [claim_C4_amended [("style", .obj [("p", .num 1)])] [("k", .num 2)]
    (Or.inr rfl) (List.nodup_singleton "k")]
  rfl

/-- C5: under the default forwarding predicate, a `$`-prefixed property
name present in the incoming props is present in the mapping handed to a
function-shaped attrs spec and to a function-shaped class input (both
receive the full incoming props), but absent from the final property
mapping forwarded to the base component. -/
theorem claim_C5 (cfg : RenderCfg) (p : Obj) (n : String)
    (hcfg : cfg.shouldForwardProp = defaultShouldForwardProp)
    (hn : n.data.head? = some '$') :
    (objHas p n = true →
      objHas (attrsFunctionArgument p) n = true ∧
      objHas (classFunctionArgument p) n = true) ∧
    (∀ g, cfg.attrs = some (.funcSpec g) →
      resolveFinalProps cfg p =
        filterProps (mergePropsWithAttrs (g p) (restOf p)) cfg.shouldForwardProp) ∧
    objHas (resolveFinalProps cfg p) n = false := by
  have hpred : defaultShouldForwardProp n = false := by
    unfold defaultShouldForwardProp
    cases hd : n.data with
    | nil => rw [hd] at hn; simp at hn
    | cons c cs =>
      rw [hd] at hn
      simp only [List.head?, Option.some.injEq] at hn
      simp [hn]
  refine ⟨fun h => ⟨h, h⟩, fun g hg => ?_, ?_⟩
  · obtain ⟨attrs, sfp, cr, ci, co⟩ := cfg
    simp only [RenderCfg.attrs] at hg
    subst hg
    rfl
  · exact objHas_resolveFinalProps_false cfg p (by rw [hcfg]; exact hpred)

/-- Witness for C5: the prop `$size` reaches the attrs function's argument
but not the final forwarded props of a default-configured component with a
function-shaped attrs spec. -/
theorem claim_C5_witness :
    objHas (attrsFunctionArgument [("$size", JSVal.num 5)]) "$size" = true ∧
    objHas (resolveFinalProps
      ⟨some (.funcSpec fun q => [("title", objGet q "$size")]),
        defaultShouldForwardProp, none, .tpl "x", clsx2⟩
      [("$size", JSVal.num 5)]) "$size" = false := by
  have h := claim_C5
    ⟨some (.funcSpec fun q => [("title", objGet q "$size")]),
      defaultShouldForwardProp, none, .tpl "x", clsx2⟩
    [("$size", JSVal.num 5)] "$size" rfl rfl
  exact ⟨(h.1 rfl).1, h.2.2⟩

/-- C6: `transientProps` replaces the forwarding predicate with
negation-on-match and supersedes any previously installed predicate: the
new predicate is exactly `!names.contains prop` (list form) or
`!pred prop` (predicate form) regardless of the prior configuration;
after `transientProps(["size"])` a prop named `size` never appears in the
final forwarded props, while a prop named `sized` present in the incoming
props (no attrs bound) still does. -/
theorem claim_C6 (cfg : TemplateConfig) (l : List String) (f : String → Bool)
    (prop : String) (ci : ClassInput) (compose : JSVal → JSVal → JSVal) (p : Obj) :
    ((transientProps cfg (.names l)).shouldForwardProp prop = !(l.contains prop)) ∧
    ((transientProps cfg (.pred f)).shouldForwardProp prop = !(f prop)) ∧
    (objHas (resolveFinalProps
      (renderCfgOf (transientProps cfg (.names ["size"])) ci compose) p) "size"
        = false) ∧
    (cfg.attrs = none → objHas p "sized" = true →
      objHas (resolveFinalProps
        (renderCfgOf (transientProps cfg (.names ["size"])) ci compose) p) "sized"
          = true) := by
  refine ⟨rfl, rfl, ?_, fun ha hp => ?_⟩
  · exact objHas_resolveFinalProps_false _ p rfl
  · obtain ⟨attrs, sfp, cr⟩ := cfg
    simp only [TemplateConfig.attrs] at ha
    subst ha
    simp [renderCfgOf, transientProps, resolveFinalProps, objHas_filterProps,
      objHas_restOf, hp]

/-- Witness for C6: with the factory-default starting configuration,
`transientProps(["size"])` drops `size` and forwards `sized`. -/
theorem claim_C6_witness :
    objHas (resolveFinalProps
      (renderCfgOf (transientProps (initialTemplateConfig defaultShouldForwardProp)
        (.names ["size"])) (.tpl "x") clsx2)
      [("size", JSVal.num 1), ("sized", JSVal.num 2)]) "size" = false ∧
    objHas (resolveFinalProps
      (renderCfgOf (transientProps (initialTemplateConfig defaultShouldForwardProp)
        (.names ["size"])) (.tpl "x") clsx2)
      [("size", JSVal.num 1), ("sized", JSVal.num 2)]) "sized" = true := by
  have h := claim_C6 (initialTemplateConfig defaultShouldForwardProp) ["a"]
    (fun _ => true) "size" (.tpl "x") clsx2
    [("size", JSVal.num 1), ("sized", JSVal.num 2)]
  exact ⟨h.2.2.1, h.2.2.2 rfl rfl⟩

/-- C7: if a children renderer is bound, the final children are the
renderer applied to exactly the incoming children value — `undefined` when
no children are passed — and with no renderer bound the final children are
the incoming children unchanged. -/
theorem claim_C7 (cfg : RenderCfg) (r : JSVal → JSVal) (p : Obj) :
    (cfg.childrenRenderer = some r →
      emittedChildren cfg p = r (objGet p "children")) ∧
    (cfg.childrenRenderer = some r → objHas p "children" = false →
      emittedChildren cfg p = r .undefined) ∧
    (cfg.childrenRenderer = none → emittedChildren cfg p = objGet p "children") := by
  refine ⟨fun h => ?_, fun h hnone => ?_, fun h => ?_⟩
  · simp [emittedChildren, resolveChildren, h]
  · simp [emittedChildren, resolveChildren, h, objGet_of_not_has hnone]
  · simp [emittedChildren, resolveChildren, h]

/-- Witness for C7: a bound renderer is called with `undefined` when no
children are passed. -/
theorem claim_C7_witness :
    emittedChildren
      ⟨none, defaultShouldForwardProp, some fun v => .arr [v], .tpl "x", clsx2⟩ [] =
      .arr [.undefined] := by
  have h := claim_C7
    ⟨none, defaultShouldForwardProp, some fun v => .arr [v], .tpl "x", clsx2⟩
    (fun v => .arr [v]) []
  exact h.2.1 rfl rfl

/-- C8: with a function-shaped class input, when `classFn(p)` is itself a
function (deferred interaction-state case) the final class name is a
function that, at state `s`, composes `classFn(p)(s)` with
`classNameProp(s)` when the incoming `className` prop is a function and
with the plain string `className` prop as-is (independent of `s`)
otherwise; in the non-deferred case the final class name is
`compose(classFn(p), classNameProp)`. -/
theorem claim_C8 (cfg : RenderCfg) (env : Nat → JSVal → JSVal) (f : Obj → JSVal)
    (p : Obj) (tb tc : Nat) (c : String) (hci : cfg.classInput = .classFn f) :
    (f p = .func tb → objGet p "className" = .func tc →
      resolveClassName cfg env p =
        .deferred fun s => cfg.compose (env tb s) (env tc s)) ∧
    (f p = .func tb → objGet p "className" = .str c →
      resolveClassName cfg env p =
        .deferred fun s => cfg.compose (env tb s) (.str c)) ∧
    ((∀ t, f p ≠ .func t) →
      resolveClassName cfg env p = .val (cfg.compose (f p) (objGet p "className"))) := by
  refine ⟨fun hb hc2 => ?_, fun hb hc2 => ?_, fun hnf => ?_⟩
  · simp only [resolveClassName, hci, classFunctionArgument, hb, hc2]
  · simp only [resolveClassName, hci, classFunctionArgument, hb, hc2]
  · cases hv : f p with
    | func t => exact absurd hv (hnf t)
    | undefined => simp only [resolveClassName, hci, classFunctionArgument, hv]
    | null => simp only [resolveClassName, hci, classFunctionArgument, hv]
    | bool b => simp only [resolveClassName, hci, classFunctionArgument, hv]
    | num n => simp only [resolveClassName, hci, classFunctionArgument, hv]
    | str s => simp only [resolveClassName, hci, classFunctionArgument, hv]
    | obj o => simp only [resolveClassName, hci, classFunctionArgument, hv]
    | arr es => simp only [resolveClassName, hci, classFunctionArgument, hv]

/-- Witness for C8: a class function returning the function value tagged 0
and a function-valued `className` prop tagged 1 yield a deferred final
class name composing both applied to the interaction state. -/
theorem claim_C8_witness :
    resolveClassName
      ⟨none, defaultShouldForwardProp, none, .classFn fun q => objGet q "$cls", clsx2⟩
      (fun t s => .arr [.num t, s]) [("$cls", .func 0), ("className", .func 1)] =
      .deferred fun s => clsx2 (.arr [.num 0, s]) (.arr [.num 1, s]) :=
  (claim_C8
    ⟨none, defaultShouldForwardProp, none, .classFn fun q => objGet q "$cls", clsx2⟩
    (fun t s => .arr [.num t, s]) (fun q => objGet q "$cls")
    [("$cls", .func 0), ("className", .func 1)] 0 1 "c" rfl).1 rfl rfl

/-- C9: under the default configuration (compose = the external clsx,
modelled from the spec), for static template text `T` and string
class-name prop `C` the final class name is `T` and `C` space-joined,
skipping falsy (empty) segments and preserving duplicates; the
`"bg-white p-4"`/`"shadow"` scenario yields `"bg-white p-4 shadow"`, and
an identical template and prop text is kept twice. -/
theorem claim_C9 (T C : String) (env : Nat → JSVal → JSVal) :
    (T ≠ "" → C ≠ "" →
      emittedClassName ⟨none, defaultShouldForwardProp, none, .tpl T, clsx2⟩ env
        [("className", .str C)] = .val (.str (T ++ " " ++ C))) ∧
    (T ≠ "" →
      emittedClassName ⟨none, defaultShouldForwardProp, none, .tpl T, clsx2⟩ env [] =
        .val (.str T)) ∧
    (C ≠ "" →
      emittedClassName ⟨none, defaultShouldForwardProp, none, .tpl "", clsx2⟩ env
        [("className", .str C)] = .val (.str C)) ∧
    (emittedClassName
      ⟨none, defaultShouldForwardProp, none, .tpl "bg-white p-4", clsx2⟩ env
      [("className", .str "shadow")] = .val (.str "bg-white p-4 shadow")) ∧
    (emittedClassName ⟨none, defaultShouldForwardProp, none, .tpl "p-4", clsx2⟩ env
      [("className", .str "p-4")] = .val (.str "p-4 p-4")) := by
  refine ⟨fun hT hC => ?_, fun hT => ?_, fun hC => ?_, rfl, rfl⟩
  · show FinalClass.val (clsx2 (.str T) (.str C)) = _
    simp [clsx2, truthy, clsxToVal, joinClasses, hT, hC]
  · show FinalClass.val (clsx2 (.str T) .undefined) = _
    simp [clsx2, truthy, clsxToVal, joinClasses, hT]
  · show FinalClass.val (clsx2 (.str "") (.str C)) = _
    simp [clsx2, truthy, clsxToVal, joinClasses, hC]

/-- Witness for C9: the documented scenario, through the general
space-join conjunct. -/
theorem claim_C9_witness :
    emittedClassName
      ⟨none, defaultShouldForwardProp, none, .tpl "bg-white p-4", clsx2⟩
      (fun _ _ => .undefined) [("className", .str "shadow")] =
      .val (.str "bg-white p-4 shadow") :=
  (claim_C9 "bg-white p-4" "shadow" (fun _ _ => .undefined)).1 (by decide) (by decide)

/-- C10: for every forwarding predicate — including one rejecting
`className` or `children` — the base component still receives the composed
final class name and the resolved children, provided the attrs spec
forwards no `className` entry (the spec's data model: attrs never include
`className`): `className` and `children` are split off the incoming props
before filtering, so the predicate is never consulted for them. -/
theorem claim_C10 (cfg : RenderCfg) (env : Nat → JSVal → JSVal) (p : Obj)
    (hstatic : ∀ a, cfg.attrs = some (.static a) → objHas a "className" = false)
    (hfunc : ∀ f, cfg.attrs = some (.funcSpec f) →
      objHas (f (attrsFunctionArgument p)) "className" = false) :
    emittedClassName cfg env p = resolveClassName cfg env p ∧
    emittedChildren cfg p = resolveChildren cfg.childrenRenderer p := by
  refine ⟨?_, rfl⟩
  have hcn := objHas_resolveFinalProps_className cfg p hstatic hfunc
  simp [emittedClassName, hcn]

/-- Witness for C10: a predicate rejecting every prop name (so also
`className` and `children`) still leaves the emitted class name equal to
the composed one and the emitted children equal to the resolved ones. -/
theorem claim_C10_witness :
    emittedClassName ⟨none, fun _ => false, none, .tpl "x", clsx2⟩
        (fun _ _ => .undefined) [("className", .str "c"), ("children", .num 1)] =
      resolveClassName ⟨none, fun _ => false, none, .tpl "x", clsx2⟩
        (fun _ _ => .undefined) [("className", .str "c"), ("children", .num 1)] :=
  (claim_C10 ⟨none, fun _ => false, none, .tpl "x", clsx2⟩ (fun _ _ => .undefined)
    [("className", .str "c"), ("children", .num 1)]
    (fun _ ha => Option.noConfusion ha) (fun _ hf => Option.noConfusion hf)).1

end RNTwc
